import Mathlib

/-!
Shallow embedding of the numeric core of the hydromet explorer app
(`src/streamlit_app.py`): the four infiltration models (Green-Ampt,
Philip, Horton) and the SCS Curve Number runoff calculator, together
with the fixed time grids the app evaluates them on.

The SCS calculator is pure rational arithmetic and is embedded over ℚ;
the three time-series models use `exp`, `sqrt` and real powers and are
embedded over ℝ.
-/

namespace Hydromet

/-- numpy's `np.linspace a b n`: `n` evenly spaced points from `a` to `b`
inclusive, point `i` being `a + i * (b - a) / (n - 1)`. -/
noncomputable def linspace (a b : ℝ) (n : ℕ) : List ℝ :=
  (List.range n).map fun i : ℕ => a + (i : ℝ) * (b - a) / ((n : ℝ) - 1)

/-! ### Green-Ampt (source lines 75–84)

`delta_theta = theta_s - theta_i`; `time = np.linspace(0.1, 24, 100)`;
`F = Ks * time`; `infiltration_rate = Ks * (1 + (psi * delta_theta) / F)`;
`cumulative_infiltration = F`. -/

/-- The Green-Ampt time grid, `np.linspace(0.1, 24, 100)` (source line 78). -/
noncomputable def gaTimeGrid : List ℝ := linspace 0.1 24 100

/-- Green-Ampt cumulative infiltration at one grid point: the explicit
approximation `F = Ks * t` (source line 81, vectorized in the source). -/
noncomputable def gaCumulative (Ks t : ℝ) : ℝ := Ks * t

/-- Green-Ampt infiltration rate at one grid point:
`Ks * (1 + (psi * (theta_s - theta_i)) / (Ks * t))` (source lines 75, 81, 83). -/
noncomputable def gaRate (Ks psi theta_i theta_s t : ℝ) : ℝ :=
  Ks * (1 + (psi * (theta_s - theta_i)) / (Ks * t))

/-! ### Philip (source lines 137–141)

`time = np.linspace(0.1, 24, 100)`;
`infiltration_rate = 0.5 * S * time**(-0.5) + K`;
`cumulative_infiltration = S * np.sqrt(time) + K * time`. -/

/-- The Philip time grid, `np.linspace(0.1, 24, 100)` (source line 137). -/
noncomputable def philipTimeGrid : List ℝ := linspace 0.1 24 100

/-- Philip infiltration rate at one grid point: `0.5 * S * t**(-0.5) + K`
(source line 140). -/
noncomputable def philipRate (S K t : ℝ) : ℝ := 0.5 * S * t ^ (-0.5 : ℝ) + K

/-- Philip cumulative infiltration at one grid point:
`S * np.sqrt(t) + K * t` (source line 141). -/
noncomputable def philipCumulative (S K t : ℝ) : ℝ := S * Real.sqrt t + K * t

/-! ### Horton (source lines 192–200)

`time = np.linspace(0, 24, 100)`;
`infiltration_rate = fc + (f0 - fc) * np.exp(-k * time)`;
`cumulative_infiltration = np.zeros_like(time)`;
`for i in range(1, len(time)): dt = time[i] - time[i-1];`
`  cumulative_infiltration[i] = cumulative_infiltration[i-1] + infiltration_rate[i] * dt`. -/

/-- The Horton time grid, `np.linspace(0, 24, 100)` (source line 192). -/
noncomputable def hortonTimeGrid : List ℝ := linspace 0 24 100

/-- Horton infiltration rate at one grid point:
`fc + (f0 - fc) * np.exp(-k * t)` (source line 195). -/
noncomputable def hortonRate (f0 fc k t : ℝ) : ℝ :=
  fc + (f0 - fc) * Real.exp (-k * t)

/-- The whole Horton rate series over a time grid (source line 195 is
vectorized over the grid). -/
noncomputable def hortonRateList (f0 fc k : ℝ) (ts : List ℝ) : List ℝ :=
  ts.map (hortonRate f0 fc k)

/-- Tail of the Horton cumulative-infiltration loop (source lines 198–200):
given the previous grid time `tprev` and previous accumulated value `acc`,
each remaining grid time `t` contributes `rate t * (t - tprev)`. -/
noncomputable def hortonCumulAux (f0 fc k : ℝ) : ℝ → ℝ → List ℝ → List ℝ
  | _, _, [] => []
  | tprev, acc, t :: ts =>
      (acc + hortonRate f0 fc k t * (t - tprev)) ::
        hortonCumulAux f0 fc k t (acc + hortonRate f0 fc k t * (t - tprev)) ts

/-- Horton cumulative infiltration series (source lines 197–200):
entry 0 stays at the `np.zeros_like` value `0`, and the loop starting at
index 1 accumulates `rate[i] * (t[i] - t[i-1])`. -/
noncomputable def hortonCumulative (f0 fc k : ℝ) : List ℝ → List ℝ
  | [] => []
  | t0 :: ts => 0 :: hortonCumulAux f0 fc k t0 0 ts

/-! ### SCS Curve Number (source lines 247–262)

`S = (25400 / CN) - 254; S = S / 10; Ia = Ia_ratio * S;`
`if P > Ia: Q = (P - Ia)**2 / (P - Ia + S) else: Q = 0;`
`F = S * (P - Ia) / (P - Ia + S); infiltration = P - Q`.
The abstraction ratio `Ia_ratio` is written `r` below. -/

/-- SCS potential maximum retention in cm: `(25400 / CN - 254) / 10`
(source lines 248–249, computed in mm then converted to cm). -/
def scsS (CN : ℚ) : ℚ := ((25400 / CN) - 254) / 10

/-- SCS initial abstraction `Ia = r * S` (source line 250). -/
def scsIa (CN r : ℚ) : ℚ := r * scsS CN

/-- SCS runoff `Q` (source lines 253–256): `(P - Ia)^2 / (P - Ia + S)` when
`P > Ia`, else `0`. -/
def scsQ (P CN r : ℚ) : ℚ :=
  if scsIa CN r < P then (P - scsIa CN r) ^ 2 / (P - scsIa CN r + scsS CN)
  else 0

/-- The auxiliary quantity `F = S * (P - Ia) / (P - Ia + S)` computed
unconditionally after the branch (source line 259); it is never displayed. -/
def scsF (P CN r : ℚ) : ℚ :=
  scsS CN * (P - scsIa CN r) / (P - scsIa CN r + scsS CN)

/-- SCS infiltration `P - Q` (source line 262). -/
def scsInfiltration (P CN r : ℚ) : ℚ := P - scsQ P CN r

/-- The scalar tuple the SCS tab displays (source lines 266–269):
potential maximum retention, initial abstraction, cumulative infiltration
and runoff.  The auxiliary `F` of line 259 is not part of it. -/
structure RunoffResult where
  S : ℚ
  Ia : ℚ
  infiltration : ℚ
  Q : ℚ
  deriving DecidableEq

/-- The displayed SCS result as a `RunoffResult` (source lines 264–269). -/
def scsResult (P CN r : ℚ) : RunoffResult :=
  { S := scsS CN
    Ia := scsIa CN r
    infiltration := scsInfiltration P CN r
    Q := scsQ P CN r }

/-! ## Helper lemmas -/

/-- The retention `S` is nonnegative for `0 < CN ≤ 100`. -/
lemma scsS_nonneg {CN : ℚ} (h0 : 0 < CN) (h1 : CN ≤ 100) : 0 ≤ scsS CN := by
  have h : (254 : ℚ) ≤ 25400 / CN := by
    rw [le_div_iff₀ h0]; linarith
  unfold scsS; linarith

/-- The retention `S` is positive for `0 < CN < 100`. -/
lemma scsS_pos {CN : ℚ} (h0 : 0 < CN) (h1 : CN < 100) : 0 < scsS CN := by
  have h : (254 : ℚ) < 25400 / CN := by
    rw [lt_div_iff₀ h0]; linarith
  unfold scsS; linarith

/-- Every point of `linspace 0.1 24 100` is at least `0.1`. -/
lemma linspace_01_le {t : ℝ} (h : t ∈ linspace 0.1 24 100) : 0.1 ≤ t := by
  unfold linspace at h
  obtain ⟨i, hi, rfl⟩ := List.mem_map.mp h
  have h2 : (0 : ℝ) ≤ (i : ℝ) * (24 - 0.1) / (((100 : ℕ) : ℝ) - 1) := by
    apply div_nonneg (mul_nonneg (Nat.cast_nonneg i) (by norm_num)) (by norm_num)
  linarith

/-- The Horton rate is positive whenever both `f0` and `fc` are, for any
nonnegative time, covering both the decaying (`fc < f0`) and the growing
(`f0 < fc`) regime. -/
lemma hortonRate_pos {f0 fc k t : ℝ} (hf0 : 0 < f0) (hfc : 0 < fc)
    (hk : 0 ≤ k) (ht : 0 ≤ t) : 0 < hortonRate f0 fc k t := by
  have hexp : Real.exp (-k * t) ≤ 1 := by
    rw [Real.exp_le_one_iff]; nlinarith
  have hpos : 0 < Real.exp (-k * t) := Real.exp_pos _
  rw [hortonRate]
  rcases le_or_lt fc f0 with hle | hlt
  · nlinarith
  · nlinarith [mul_le_mul_of_nonpos_left hexp (by linarith : f0 - fc ≤ 0)]

/-- The cumulative loop keeps one output value per remaining grid point. -/
lemma hortonCumulAux_length (f0 fc k : ℝ) (ts : List ℝ) :
    ∀ tprev acc : ℝ, (hortonCumulAux f0 fc k tprev acc ts).length = ts.length := by
  induction ts with
  | nil => intro tprev acc; rfl
  | cons t ts ih => intro tprev acc; simp [hortonCumulAux, ih]

/-- The cumulative series has the same length as the time grid. -/
lemma hortonCumulative_length (f0 fc k : ℝ) (ts : List ℝ) :
    (hortonCumulative f0 fc k ts).length = ts.length := by
  cases ts with
  | nil => rfl
  | cons t0 ts => simp [hortonCumulative, hortonCumulAux_length]

/-- Consecutive entries of the cumulative loop tail differ by
`rate[i] * (t[i] - t[i-1])`. -/
lemma hortonCumulAux_getD_succ (f0 fc k : ℝ) (ts : List ℝ) :
    ∀ (tprev acc : ℝ) (i : ℕ), i + 1 < ts.length →
    (hortonCumulAux f0 fc k tprev acc ts).getD (i + 1) 0 =
      (hortonCumulAux f0 fc k tprev acc ts).getD i 0 +
        hortonRate f0 fc k (ts.getD (i + 1) 0) *
          (ts.getD (i + 1) 0 - ts.getD i 0) := by
  induction ts with
  | nil => intro tprev acc i h; simp at h
  | cons t ts ih =>
      intro tprev acc i h
      cases i with
      | zero =>
          cases ts with
          | nil => simp at h
          | cons t2 ts' => simp [hortonCumulAux]
      | succ j =>
          have hj : j + 1 < ts.length := by simpa using h
          simp only [hortonCumulAux, List.getD_cons_succ]
          exact ih t (acc + hortonRate f0 fc k t * (t - tprev)) j hj

/-- Entry 0 of the Horton cumulative series is the untouched zero of
`np.zeros_like`. -/
lemma hortonCumulative_getD_zero (f0 fc k : ℝ) {ts : List ℝ} (h : ts ≠ []) :
    (hortonCumulative f0 fc k ts).getD 0 0 = 0 := by
  cases ts with
  | nil => exact absurd rfl h
  | cons t0 ts => rfl

/-- Index form of the Horton accumulation recurrence over the whole series. -/
lemma hortonCumulative_getD_succ (f0 fc k : ℝ) {ts : List ℝ} {i : ℕ}
    (h : i + 1 < ts.length) :
    (hortonCumulative f0 fc k ts).getD (i + 1) 0 =
      (hortonCumulative f0 fc k ts).getD i 0 +
        hortonRate f0 fc k (ts.getD (i + 1) 0) *
          (ts.getD (i + 1) 0 - ts.getD i 0) := by
  cases ts with
  | nil => simp at h
  | cons t0 ts =>
      cases i with
      | zero =>
          cases ts with
          | nil => simp at h
          | cons t1 ts' => simp [hortonCumulative, hortonCumulAux]
      | succ j =>
          have hj : j + 1 < ts.length := by simpa using h
          simp only [hortonCumulative, List.getD_cons_succ]
          exact hortonCumulAux_getD_succ f0 fc k ts t0 0 j hj

/-- The cumulative loop tail only moves upward when the grid is strictly
increasing, the grid times are nonnegative and both rates are positive. -/
lemma hortonCumulAux_chain {f0 fc k : ℝ} (hf0 : 0 < f0) (hfc : 0 < fc)
    (hk : 0 ≤ k) (ts : List ℝ) :
    ∀ tprev acc : ℝ, (∀ t ∈ ts, 0 ≤ t) → List.Chain (· < ·) tprev ts →
    List.Chain (· ≤ ·) acc (hortonCumulAux f0 fc k tprev acc ts) := by
  induction ts with
  | nil => intro tprev acc _ _; exact List.Chain.nil
  | cons t ts ih =>
      intro tprev acc hmem hchain
      rw [List.chain_cons] at hchain
      obtain ⟨hlt, hchain'⟩ := hchain
      have hrate : 0 < hortonRate f0 fc k t :=
        hortonRate_pos hf0 hfc hk (hmem t (by simp))
      have hstep : acc ≤ acc + hortonRate f0 fc k t * (t - tprev) := by
        nlinarith
      simp only [hortonCumulAux]
      rw [List.chain_cons]
      exact ⟨hstep, ih t _ (fun x hx => hmem x (by simp [hx])) hchain'⟩

/-- The Green-Ampt rate is strictly decreasing in time on positive times,
for positive `Ks`, `psi` and a positive moisture deficit. -/
lemma gaRate_strictAnti {Ks psi theta_i theta_s t1 t2 : ℝ} (hKs : 0 < Ks)
    (hpsi : 0 < psi) (hth : theta_i < theta_s) (ht1 : 0 < t1) (h12 : t1 < t2) :
    gaRate Ks psi theta_i theta_s t2 < gaRate Ks psi theta_i theta_s t1 := by
  have hA : 0 < psi * (theta_s - theta_i) := mul_pos hpsi (by linarith)
  have h1 : 0 < Ks * t1 := mul_pos hKs ht1
  have h2 : Ks * t1 < Ks * t2 := by nlinarith
  have hdiv := div_lt_div_of_pos_left hA h1 h2
  rw [gaRate, gaRate]
  exact mul_lt_mul_of_pos_left (by linarith) hKs

/-- The Philip rate is strictly decreasing in time on positive times for
positive sorptivity. -/
lemma philipRate_strictAnti {S K t1 t2 : ℝ} (hS : 0 < S) (ht1 : 0 < t1)
    (h12 : t1 < t2) : philipRate S K t2 < philipRate S K t1 := by
  have ht2 : 0 < t2 := lt_trans ht1 h12
  have key : t2 ^ (-0.5 : ℝ) < t1 ^ (-0.5 : ℝ) := by
    rw [Real.rpow_neg ht1.le, Real.rpow_neg ht2.le]
    exact inv_strictAnti₀ (Real.rpow_pos_of_pos ht1 _)
      (Real.rpow_lt_rpow ht1.le h12 (by norm_num))
  have h05S : (0 : ℝ) < 0.5 * S := by linarith
  rw [philipRate, philipRate]
  exact add_lt_add_right (mul_lt_mul_of_pos_left key h05S) K

/-- Numeric bracket for `exp (-2)`, obtained by squaring the Mathlib
bracket for `exp (-1)`. -/
lemma exp_neg_two_bounds :
    (0.1353 : ℝ) < Real.exp (-2) ∧ Real.exp (-2) < (0.1354 : ℝ) := by
  have h2 : Real.exp (-2 : ℝ) = Real.exp (-1) * Real.exp (-1) := by
    rw [← Real.exp_add]; norm_num
  have hlb := Real.exp_neg_one_gt_d9
  have hub := Real.exp_neg_one_lt_d9
  have hpos := Real.exp_pos (-1 : ℝ)
  constructor
  · rw [h2]; nlinarith
  · rw [h2]; nlinarith

/-! ## Claim theorems -/

/-- C1: for every rainfall `P > 0`, curve number `CN ∈ (0, 100]` and
abstraction ratio `r`, the SCS calculator computes
`S = 2540/CN - 25.4` (cm), `Ia = r * S`,
`Q = (P - Ia)^2 / (P - Ia + S)` when `P > Ia` and `Q = 0` otherwise, and
`infiltration = P - Q`; and at `P = 5`, `CN = 70`, `r = 0.2` the results
are within `1/100` of `10.886`, `2.177`, `0.581` and `4.419`. -/
theorem scs_runoff_spec (P CN r : ℚ) (hP : 0 < P) (hCN0 : 0 < CN)
    (hCN1 : CN ≤ 100) :
    scsS CN = 2540 / CN - 25.4 ∧
    scsIa CN r = r * scsS CN ∧
    (scsIa CN r < P →
      scsQ P CN r = (P - scsIa CN r) ^ 2 / (P - scsIa CN r + scsS CN)) ∧
    (P ≤ scsIa CN r → scsQ P CN r = 0) ∧
    scsInfiltration P CN r = P - scsQ P CN r ∧
    |scsS 70 - 10.886| ≤ 1 / 100 ∧
    |scsIa 70 0.2 - 2.177| ≤ 1 / 100 ∧
    |scsQ 5 70 0.2 - 0.581| ≤ 1 / 100 ∧
    |scsInfiltration 5 70 0.2 - 4.419| ≤ 1 / 100 := by
  refine ⟨?_, rfl, ?_, ?_, rfl, ?_, ?_, ?_, ?_⟩
  · have hne : CN ≠ 0 := hCN0.ne'
    unfold scsS; field_simp; ring
  · intro h; rw [scsQ, if_pos h]
  · intro h; rw [scsQ, if_neg (not_lt.mpr h)]
  · norm_num [scsS, abs_le]
  · norm_num [scsIa, scsS, abs_le]
  · norm_num [scsQ, scsIa, scsS, abs_le]
  · norm_num [scsInfiltration, scsQ, scsIa, scsS, abs_le]

/-- Witness for C1 at `P = 5`, `CN = 70`, `r = 0.2`. -/
theorem scs_runoff_spec_witness :
    (0 : ℚ) < 5 ∧ (0 : ℚ) < 70 ∧ (70 : ℚ) ≤ 100 ∧
    |scsQ 5 70 0.2 - 0.581| ≤ 1 / 100 :=
  ⟨by norm_num, by norm_num, by norm_num,
    (scs_runoff_spec 5 70 0.2 (by norm_num) (by norm_num)
      (by norm_num)).2.2.2.2.2.2.2.1⟩

/-- C5: for every SCS input with `P > 0` and `CN ∈ (0, 100]` and any
abstraction ratio, `Q ≥ 0` and `infiltration = P - Q`; and whenever
`P ≤ Ia`, `Q = 0` exactly and `infiltration = P` exactly. -/
theorem scs_invariants (P CN r : ℚ) (hP : 0 < P) (hCN0 : 0 < CN)
    (hCN1 : CN ≤ 100) :
    0 ≤ scsQ P CN r ∧
    scsInfiltration P CN r = P - scsQ P CN r ∧
    (P ≤ scsIa CN r → scsQ P CN r = 0 ∧ scsInfiltration P CN r = P) := by
  have hS := scsS_nonneg hCN0 hCN1
  have hQ : 0 ≤ scsQ P CN r := by
    rw [scsQ]
    split_ifs with h
    · exact div_nonneg (sq_nonneg _) (by linarith)
    · exact le_refl 0
  refine ⟨hQ, rfl, fun h => ?_⟩
  have hQ0 : scsQ P CN r = 0 := by rw [scsQ, if_neg (not_lt.mpr h)]
  exact ⟨hQ0, by rw [scsInfiltration, hQ0, sub_zero]⟩

/-- Witness for C5 at `P = 1`, `CN = 70`, `r = 0.2`, where `P ≤ Ia`. -/
theorem scs_invariants_witness :
    (0 : ℚ) < 1 ∧ (0 : ℚ) < 70 ∧ (70 : ℚ) ≤ 100 ∧
    (0 ≤ scsQ 1 70 0.2 ∧ scsInfiltration 1 70 0.2 = 1 - scsQ 1 70 0.2 ∧
      ((1 : ℚ) ≤ scsIa 70 0.2 → scsQ 1 70 0.2 = 0 ∧
        scsInfiltration 1 70 0.2 = 1)) :=
  ⟨by norm_num, by norm_num, by norm_num,
    scs_invariants 1 70 0.2 (by norm_num) (by norm_num) (by norm_num)⟩

/-- C10: the auxiliary `F = S * (P - Ia) / (P - Ia + S)` of source line 259
is computed by the same formula regardless of the branch; whenever `P > 0`,
`CN ∈ (0, 100)`, `0 < r < 1` and `P ≤ Ia`, it is nonpositive; and the
displayed result consists exactly of `S`, `Ia`, `infiltration = P - Q` and
`Q` — the auxiliary `F` is not one of its fields. -/
theorem scs_aux_F (P CN r : ℚ) (hP : 0 < P) (hCN0 : 0 < CN)
    (hCN1 : CN < 100) (hr0 : 0 < r) (hr1 : r < 1)
    (hPIa : P ≤ scsIa CN r) :
    scsF P CN r = scsS CN * (P - scsIa CN r) / (P - scsIa CN r + scsS CN) ∧
    scsF P CN r ≤ 0 ∧
    scsResult P CN r =
      { S := scsS CN, Ia := scsIa CN r, infiltration := P - scsQ P CN r,
        Q := scsQ P CN r } := by
  have hS : 0 < scsS CN := scsS_pos hCN0 hCN1
  have hIaS : scsIa CN r < scsS CN := by
    have := mul_lt_mul_of_pos_right hr1 hS
    rw [one_mul] at this
    exact this
  have hden : 0 < P - scsIa CN r + scsS CN := by linarith
  have hnum : scsS CN * (P - scsIa CN r) ≤ 0 := by nlinarith
  refine ⟨rfl, ?_, rfl⟩
  rw [scsF]
  exact div_nonpos_iff.mpr (Or.inr ⟨hnum, hden.le⟩)

/-- Witness for C10 at `P = 1`, `CN = 70`, `r = 0.2`. -/
theorem scs_aux_F_witness :
    (0 : ℚ) < 1 ∧ (0 : ℚ) < 70 ∧ (70 : ℚ) < 100 ∧ (0 : ℚ) < 0.2 ∧
    (0.2 : ℚ) < 1 ∧ (1 : ℚ) ≤ scsIa 70 0.2 ∧ scsF 1 70 0.2 ≤ 0 :=
  ⟨by norm_num, by norm_num, by norm_num, by norm_num, by norm_num,
    by norm_num [scsIa, scsS],
    (scs_aux_F 1 70 0.2 (by norm_num) (by norm_num) (by norm_num)
      (by norm_num) (by norm_num) (by norm_num [scsIa, scsS])).2.1⟩

/-- C3: for every `Ks > 0`, `psi > 0`, any `theta_i`, `theta_s` and every
time `t > 0`, the Green-Ampt model returns the explicit approximation
`cumulative = Ks * t` and `rate = Ks * (1 + psi * (theta_s - theta_i) /
(Ks * t))`, which simplifies to `Ks + psi * (theta_s - theta_i) / t`. -/
theorem green_ampt_spec (Ks psi theta_i theta_s t : ℝ) (hKs : 0 < Ks)
    (hpsi : 0 < psi) (ht : 0 < t) :
    gaCumulative Ks t = Ks * t ∧
    gaRate Ks psi theta_i theta_s t =
      Ks * (1 + psi * (theta_s - theta_i) / (Ks * t)) ∧
    gaRate Ks psi theta_i theta_s t = Ks + psi * (theta_s - theta_i) / t := by
  refine ⟨rfl, rfl, ?_⟩
  have hK : Ks ≠ 0 := hKs.ne'
  have ht0 : t ≠ 0 := ht.ne'
  rw [gaRate]
  field_simp
  ring

/-- Witness for C3 at `Ks = 1`, `psi = 20`, `theta_i = 0.2`,
`theta_s = 0.5`, `t = 1`. -/
theorem green_ampt_spec_witness :
    (0 : ℝ) < 1 ∧ (0 : ℝ) < 20 ∧
    gaRate 1 20 0.2 0.5 1 = 1 + 20 * (0.5 - 0.2) / 1 :=
  ⟨by norm_num, by norm_num,
    (green_ampt_spec 1 20 0.2 0.5 1 (by norm_num) (by norm_num)
      (by norm_num)).2.2⟩

/-- C4: for every `S > 0`, `K > 0` and every time `t > 0`, the Philip model
returns `rate = 0.5 * S * t ^ (-0.5) + K` and
`cumulative = S * t ^ 0.5 + K * t` in closed form; at `S = 1`, `K = 1`,
`t = 1` the rate is `1.5` and the cumulative is `2` exactly. -/
theorem philip_spec (S K t : ℝ) (hS : 0 < S) (hK : 0 < K) (ht : 0 < t) :
    philipRate S K t = 0.5 * S * t ^ (-0.5 : ℝ) + K ∧
    philipCumulative S K t = S * t ^ (0.5 : ℝ) + K * t ∧
    philipRate 1 1 1 = 1.5 ∧
    philipCumulative 1 1 1 = 2 := by
  have hhalf : ((1 : ℝ) / 2) = (0.5 : ℝ) := by norm_num
  refine ⟨rfl, ?_, ?_, ?_⟩
  · rw [philipCumulative, Real.sqrt_eq_rpow, hhalf]
  · rw [philipRate, Real.one_rpow]; norm_num
  · rw [philipCumulative, Real.sqrt_one]; norm_num

/-- Witness for C4 at `S = 1`, `K = 1`, `t = 1`. -/
theorem philip_spec_witness :
    (0 : ℝ) < 1 ∧ philipRate 1 1 1 = 1.5 ∧ philipCumulative 1 1 1 = 2 :=
  ⟨by norm_num,
    (philip_spec 1 1 1 (by norm_num) (by norm_num) (by norm_num)).2.2.1,
    (philip_spec 1 1 1 (by norm_num) (by norm_num) (by norm_num)).2.2.2⟩

/-- C7: with `Ks, psi > 0` and `theta_s > theta_i` fixed, and with
`S, K > 0` fixed, both the Green-Ampt rate and the Philip rate are strictly
decreasing in time: `rate t2 < rate t1` whenever `0 < t1 < t2`. -/
theorem rates_strictly_decreasing (Ks psi theta_i theta_s S K t1 t2 : ℝ)
    (hKs : 0 < Ks) (hpsi : 0 < psi) (hth : theta_i < theta_s)
    (hS : 0 < S) (hK : 0 < K) (ht1 : 0 < t1) (h12 : t1 < t2) :
    gaRate Ks psi theta_i theta_s t2 < gaRate Ks psi theta_i theta_s t1 ∧
    philipRate S K t2 < philipRate S K t1 :=
  ⟨gaRate_strictAnti hKs hpsi hth ht1 h12,
    philipRate_strictAnti hS ht1 h12⟩

/-- Witness for C7 at `Ks = 1`, `psi = 20`, `theta_i = 0.2`,
`theta_s = 0.5`, `S = 1`, `K = 1`, `t1 = 1`, `t2 = 2`. -/
theorem rates_strictly_decreasing_witness :
    (0 : ℝ) < 1 ∧ (0 : ℝ) < 20 ∧ (0.2 : ℝ) < 0.5 ∧ (1 : ℝ) < 2 ∧
    (gaRate 1 20 0.2 0.5 2 < gaRate 1 20 0.2 0.5 1 ∧
      philipRate 1 1 2 < philipRate 1 1 1) :=
  ⟨by norm_num, by norm_num, by norm_num, by norm_num,
    rates_strictly_decreasing 1 20 0.2 0.5 1 1 1 2 (by norm_num)
      (by norm_num) (by norm_num) (by norm_num) (by norm_num) (by norm_num)
      (by norm_num)⟩

/-- C2: for every `f0, fc, k > 0` and every strictly increasing time grid,
the Horton model returns `rate[i] = fc + (f0 - fc) * exp (-k * t[i])`
(with `rate = f0` at `t = 0`), and cumulative is the right-endpoint
rectangular accumulation `cumulative[0] = 0`,
`cumulative[i] = cumulative[i-1] + rate[i] * (t[i] - t[i-1])`; with
`f0 = 10`, `fc = 1`, `k = 1` over `[0, 1, 2]` the rates are within `1/100`
of `10`, `4.31`, `2.22` and the cumulatives of `0`, `4.31`, `6.53`. -/
theorem horton_model_spec (f0 fc k : ℝ) (ts : List ℝ) (hf0 : 0 < f0)
    (hfc : 0 < fc) (hk : 0 < k) (hts : List.Chain' (· < ·) ts) :
    (∀ i, i < ts.length →
      (hortonRateList f0 fc k ts).getD i 0 =
        fc + (f0 - fc) * Real.exp (-k * ts.getD i 0)) ∧
    hortonRate f0 fc k 0 = f0 ∧
    (hortonCumulative f0 fc k ts).length = ts.length ∧
    (ts ≠ [] → (hortonCumulative f0 fc k ts).getD 0 0 = 0) ∧
    (∀ i, i + 1 < ts.length →
      (hortonCumulative f0 fc k ts).getD (i + 1) 0 =
        (hortonCumulative f0 fc k ts).getD i 0 +
          hortonRate f0 fc k (ts.getD (i + 1) 0) *
            (ts.getD (i + 1) 0 - ts.getD i 0)) ∧
    |(hortonRateList 10 1 1 [0, 1, 2]).getD 0 0 - 10| ≤ 1 / 100 ∧
    |(hortonRateList 10 1 1 [0, 1, 2]).getD 1 0 - 4.31| ≤ 1 / 100 ∧
    |(hortonRateList 10 1 1 [0, 1, 2]).getD 2 0 - 2.22| ≤ 1 / 100 ∧
    (hortonCumulative 10 1 1 [0, 1, 2]).getD 0 0 = 0 ∧
    |(hortonCumulative 10 1 1 [0, 1, 2]).getD 1 0 - 4.31| ≤ 1 / 100 ∧
    |(hortonCumulative 10 1 1 [0, 1, 2]).getD 2 0 - 6.53| ≤ 1 / 100 := by
  have e1lb := Real.exp_neg_one_gt_d9
  have e1ub := Real.exp_neg_one_lt_d9
  obtain ⟨e2lb, e2ub⟩ := exp_neg_two_bounds
  refine ⟨?_, ?_, hortonCumulative_length f0 fc k ts,
    fun h => hortonCumulative_getD_zero f0 fc k h,
    fun i h => hortonCumulative_getD_succ f0 fc k h, ?_, ?_, ?_, ?_, ?_, ?_⟩
  · intro i hi
    unfold hortonRateList
    have hi2 : i < (ts.map (hortonRate f0 fc k)).length := by simpa using hi
    rw [List.getD_eq_getElem _ _ hi2, List.getElem_map,
      List.getD_eq_getElem _ _ hi, hortonRate]
  · rw [hortonRate, mul_zero, Real.exp_zero]; ring
  · simp only [hortonRateList, List.map_cons, List.map_nil, hortonRate,
      List.getD_cons_zero]
    norm_num
  · simp only [hortonRateList, List.map_cons, List.map_nil, hortonRate,
      List.getD_cons_succ, List.getD_cons_zero]
    norm_num
    rw [abs_le]
    constructor <;> nlinarith
  · simp only [hortonRateList, List.map_cons, List.map_nil, hortonRate,
      List.getD_cons_succ, List.getD_cons_zero]
    norm_num
    rw [abs_le]
    constructor <;> nlinarith
  · rfl
  · simp only [hortonCumulative, hortonCumulAux, hortonRate,
      List.getD_cons_succ, List.getD_cons_zero]
    norm_num
    rw [abs_le]
    constructor <;> nlinarith
  · simp only [hortonCumulative, hortonCumulAux, hortonRate,
      List.getD_cons_succ, List.getD_cons_zero]
    norm_num
    rw [abs_le]
    constructor <;> nlinarith

/-- Witness for C2 at `f0 = 10`, `fc = 1`, `k = 1`, grid `[0, 1, 2]`. -/
theorem horton_model_spec_witness :
    (0 : ℝ) < 10 ∧ (0 : ℝ) < 1 ∧ List.Chain' (· < ·) [(0 : ℝ), 1, 2] ∧
    |(hortonCumulative 10 1 1 [0, 1, 2]).getD 2 0 - 6.53| ≤ 1 / 100 := by
  have h := horton_model_spec 10 1 1 [0, 1, 2] (by norm_num) (by norm_num)
    (by norm_num) (by norm_num [List.chain'_cons])
  exact ⟨by norm_num, by norm_num, by norm_num [List.chain'_cons],
    h.2.2.2.2.2.2.2.2.2.2⟩

/-- C6: for every `f0, fc, k > 0` and every strictly increasing grid of
nonnegative times, the Horton cumulative series starts at `0` and is
non-decreasing, with no assumption that `fc < f0` (the degenerate growth
regime `f0 < fc` is included). -/
theorem horton_cumulative_monotone (f0 fc k : ℝ) (ts : List ℝ)
    (hf0 : 0 < f0) (hfc : 0 < fc) (hk : 0 < k)
    (hmem : ∀ t ∈ ts, 0 ≤ t) (hts : List.Chain' (· < ·) ts)
    (hne : ts ≠ []) :
    (hortonCumulative f0 fc k ts).getD 0 0 = 0 ∧
    ∀ i, i + 1 < ts.length →
      (hortonCumulative f0 fc k ts).getD i 0 ≤
        (hortonCumulative f0 fc k ts).getD (i + 1) 0 := by
  refine ⟨hortonCumulative_getD_zero f0 fc k hne, fun i hi => ?_⟩
  rw [hortonCumulative_getD_succ f0 fc k hi]
  have hii : i < ts.length := by omega
  have hmemi : ts.getD (i + 1) 0 ∈ ts := by
    rw [List.getD_eq_getElem _ _ hi]
    exact List.getElem_mem _
  have hrate : 0 < hortonRate f0 fc k (ts.getD (i + 1) 0) :=
    hortonRate_pos hf0 hfc hk.le (hmem _ hmemi)
  have hstep : ts.getD i 0 < ts.getD (i + 1) 0 := by
    have hchain := List.chain'_iff_get.mp hts i (by omega)
    simp only [List.get_eq_getElem] at hchain
    rw [List.getD_eq_getElem _ _ hii, List.getD_eq_getElem _ _ hi]
    exact hchain
  nlinarith

/-- Witness for C6 in the degenerate growth regime `f0 = 1 < fc = 2`,
`k = 1`, grid `[0, 1]`. -/
theorem horton_cumulative_monotone_witness :
    (0 : ℝ) < 1 ∧ (0 : ℝ) < 2 ∧ (∀ t ∈ [(0 : ℝ), 1], 0 ≤ t) ∧
    List.Chain' (· < ·) [(0 : ℝ), 1] ∧
    ((hortonCumulative 1 2 1 [0, 1]).getD 0 0 = 0 ∧
      ∀ i, i + 1 < ([(0 : ℝ), 1]).length →
        (hortonCumulative 1 2 1 [0, 1]).getD i 0 ≤
          (hortonCumulative 1 2 1 [0, 1]).getD (i + 1) 0) :=
  ⟨by norm_num, by norm_num, by norm_num, by norm_num [List.chain'_cons],
    horton_cumulative_monotone 1 2 1 [0, 1] (by norm_num) (by norm_num)
      (by norm_num) (by norm_num) (by norm_num [List.chain'_cons])
      (by simp)⟩

/-- C8: the cumulative series is non-decreasing for every model —
Green-Ampt (`Ks * t`, for any moisture contents, which `gaCumulative`
does not even depend on), Philip, and Horton — while the Green-Ampt rate
is not sign-guaranteed: for some positive `Ks`, `psi` with
`theta_i > theta_s` the rate is negative at a grid point. -/
theorem cumulative_monotone_all_models (Ks S K f0 fc k t1 t2 : ℝ)
    (ts : List ℝ) (hKs : 0 < Ks) (hS : 0 < S) (hK : 0 < K) (hf0 : 0 < f0)
    (hfc : 0 < fc) (hk : 0 < k) (ht1 : 0 ≤ t1) (h12 : t1 ≤ t2)
    (hmem : ∀ t ∈ ts, 0 ≤ t) (hts : List.Chain' (· < ·) ts) :
    gaCumulative Ks t1 ≤ gaCumulative Ks t2 ∧
    philipCumulative S K t1 ≤ philipCumulative S K t2 ∧
    List.Chain' (· ≤ ·) (hortonCumulative f0 fc k ts) ∧
    ∃ Ks2 psi2 ti2 ts2 : ℝ, 0 < Ks2 ∧ 0 < psi2 ∧ ts2 < ti2 ∧
      ∃ t ∈ gaTimeGrid, gaRate Ks2 psi2 ti2 ts2 t < 0 := by
  refine ⟨mul_le_mul_of_nonneg_left h12 hKs.le, ?_, ?_, ?_⟩
  · have h1 : Real.sqrt t1 ≤ Real.sqrt t2 := Real.sqrt_le_sqrt h12
    rw [philipCumulative, philipCumulative]
    have h2 := mul_le_mul_of_nonneg_left h1 hS.le
    have h3 := mul_le_mul_of_nonneg_left h12 hK.le
    linarith
  · cases ts with
    | nil => exact trivial
    | cons t0 rest =>
        exact hortonCumulAux_chain hf0 hfc hk.le rest t0 0
          (fun x hx => hmem x (List.mem_cons_of_mem t0 hx)) hts
  · refine ⟨1, 20, 0.5, 0.3, by norm_num, by norm_num, by norm_num,
      0.1, ?_, by norm_num [gaRate]⟩
    show (0.1 : ℝ) ∈ linspace 0.1 24 100
    unfold linspace
    exact List.mem_map.mpr ⟨0, List.mem_range.mpr (by norm_num), by norm_num⟩

/-- Witness for C8 at `Ks = S = K = 1`, `f0 = 1`, `fc = 2`, `k = 1`,
`t1 = 0`, `t2 = 1`, grid `[0, 1]`. -/
theorem cumulative_monotone_all_models_witness :
    (0 : ℝ) < 1 ∧ (0 : ℝ) ≤ 1 ∧
    gaCumulative 1 0 ≤ gaCumulative 1 1 ∧
    philipCumulative 1 1 0 ≤ philipCumulative 1 1 1 := by
  have h := cumulative_monotone_all_models 1 1 1 1 2 1 0 1 [0, 1]
    (by norm_num) (by norm_num) (by norm_num) (by norm_num) (by norm_num)
    (by norm_num) (by norm_num) (by norm_num) (by norm_num)
    (by norm_num [List.chain'_cons])
  exact ⟨by norm_num, by norm_num, h.1, h.2.1⟩

/-- C9: the Green-Ampt and Philip evaluations never see `t = 0`: every
point of their fixed time grid is at least `0.1`, hence positive, so the
divisions are by nonzero quantities; and for positive parameters every
rate value produced over the grid is bounded by the (finite) rate at the
first grid point `0.1`. -/
theorem grids_exclude_zero_rates_finite (Ks psi theta_i theta_s S K : ℝ)
    (hKs : 0 < Ks) (hpsi : 0 < psi) (hth : theta_i < theta_s)
    (hS : 0 < S) (hK : 0 < K) :
    (∀ t ∈ gaTimeGrid, 0.1 ≤ t ∧ 0 < t) ∧
    (∀ t ∈ philipTimeGrid, 0.1 ≤ t ∧ 0 < t) ∧
    (∀ t ∈ gaTimeGrid,
      gaRate Ks psi theta_i theta_s t ≤ gaRate Ks psi theta_i theta_s 0.1) ∧
    (∀ t ∈ philipTimeGrid, philipRate S K t ≤ philipRate S K 0.1) := by
  have hga : ∀ t ∈ gaTimeGrid, (0.1 : ℝ) ≤ t := fun t ht => linspace_01_le ht
  have hph : ∀ t ∈ philipTimeGrid, (0.1 : ℝ) ≤ t :=
    fun t ht => linspace_01_le ht
  refine ⟨fun t ht => ⟨hga t ht, by linarith [hga t ht]⟩,
    fun t ht => ⟨hph t ht, by linarith [hph t ht]⟩, ?_, ?_⟩
  · intro t ht
    rcases eq_or_lt_of_le (hga t ht) with heq | hlt
    · rw [← heq]
    · exact (gaRate_strictAnti hKs hpsi hth (by norm_num) hlt).le
  · intro t ht
    rcases eq_or_lt_of_le (hph t ht) with heq | hlt
    · rw [← heq]
    · exact (philipRate_strictAnti hS (by norm_num) hlt).le

/-- Witness for C9 at `Ks = 1`, `psi = 20`, `theta_i = 0.2`,
`theta_s = 0.5`, `S = 1`, `K = 1`. -/
theorem grids_exclude_zero_rates_finite_witness :
    (0 : ℝ) < 1 ∧ (0 : ℝ) < 20 ∧ (0.2 : ℝ) < 0.5 ∧
    (∀ t ∈ gaTimeGrid, (0.1 : ℝ) ≤ t ∧ 0 < t) ∧
    (∀ t ∈ philipTimeGrid, philipRate 1 1 t ≤ philipRate 1 1 0.1) := by
  have h := grids_exclude_zero_rates_finite 1 20 0.2 0.5 1 1 (by norm_num)
    (by norm_num) (by norm_num) (by norm_num) (by norm_num)
  exact ⟨by norm_num, by norm_num, by norm_num, h.1, h.2.2.2⟩

end Hydromet
